import Mathlib

/-!
Verification of the unified task-progress aggregator of
`src/linux/taskprogressmanager.cpp` (class `MOBase::TaskProgressManager`).

Shallow embedding notes:
* `QTime` timestamps are modelled as integer seconds; `a.secsTo(b)` is `b - a`.
* `quint32` task ids are `Nat` (the id counter wraps explicitly at `2 ^ 32`).
* `qint64` quantities (`value`, `max`, the stored percentage) are `Int`.
  The signed product `value * 100` can overflow `qint64`; ISO C++ leaves
  signed overflow undefined, and it is modelled here as two's-complement
  wrap-around into `[-2 ^ 63, 2 ^ 63)` (`I64`), the behavior of the
  targets the code ships on.  C++ signed division truncates toward zero,
  which is `Int.tdiv`; with a positive divisor (the contract's `max > 0`)
  its result always fits in `qint64`, so no wrap follows the division.
* `unsigned long long` accumulators (`total`, `count`) are `Nat` reduced
  modulo `2 ^ 64` where the C++ arithmetic wraps; the cast
  `static_cast<unsigned long long>(qint64)` is reduction mod `2 ^ 64`.
* `m_Percentages` is a `std::map<quint32, std::pair<QTime, qint64>>`; it is
  modelled as an association list with set-like update semantics (a
  `std::map` holds at most one entry per key; iteration order only feeds
  the commutative sum/count, so it is observationally irrelevant).
* The D-Bus send in `showProgress` is modelled by returning the published
  payload (`progress-visible`, and `progress` when inserted) instead of
  performing IO; `none` for `progress` means the property was not inserted.
* The mutex and the unused `QTimer` member have no sequential content and
  are omitted.
-/

set_option autoImplicit false

namespace MOBase

/-- One registry cell: `(key, (lastUpdate, percent))`, embedding one entry of
`std::map<quint32, std::pair<QTime, qint64>>`. -/
abbrev Registry := List (Nat × Int × Int)

/-- `2 ^ 64`, the modulus of `unsigned long long` arithmetic. -/
def U64 : Nat := 2 ^ 64

/-- `static_cast<unsigned long long>(p)` for a `qint64` value `p`:
conversion to an unsigned type reduces modulo `2 ^ 64`. -/
def toULL (p : Int) : Nat := (p % (U64 : Int)).toNat

/-- Two's-complement wrap of an integer into the `qint64` range
`[-2 ^ 63, 2 ^ 63)`: the model of C++ signed-integer overflow (undefined
behavior per ISO, wrap-around on the two's-complement targets at hand). -/
def I64 (x : Int) : Int := (x + 2 ^ 63) % 2 ^ 64 - 2 ^ 63

/-- `m_Percentages.find(id)` followed by the dereference: the entry stored
under `id`, if any. -/
def mapFind (id : Nat) : Registry → Option (Int × Int)
  | [] => none
  | e :: r => if e.1 = id then some e.2 else mapFind id r

/-- `m_Percentages.erase(iter)` after a successful `find(id)`: removes the
entry keyed `id` (a no-op when absent, matching `find == end()`). -/
def mapErase (id : Nat) (reg : Registry) : Registry :=
  reg.filter (fun e => e.1 ≠ id)

/-- `m_Percentages[id] = v`: insert-or-overwrite the entry keyed `id`. -/
def mapAssign (id : Nat) (v : Int × Int) (reg : Registry) : Registry :=
  (id, v) :: mapErase id reg

/-- The eviction loop of `showProgress`: walks the registry once, keeping
every entry with `iter->second.first.secsTo(now) < 15` while accumulating
`total += static_cast<unsigned long long>(percent)` and `++count`, and
erasing every other entry.  Returns (surviving registry, total, count). -/
def sweep (now : Int) : Registry → Registry × Nat × Nat
  | [] => ([], 0, 0)
  | e :: rest =>
      let r := sweep now rest
      if now - e.2.1 < 15 then
        (e :: r.1, (r.2.1 + toULL e.2.2) % U64, (r.2.2 + 1) % U64)
      else
        (r.1, r.2.1, r.2.2)

/-- The payload of the `com.canonical.Unity.LauncherEntry` `Update` signal:
the `progress-visible` property, and the `progress` property when it is
inserted (`none` when the invisible branch leaves it out).  The C++
`progress` value is the `unsigned long long` quotient `total / (count * 100)`. -/
structure Aggregate where
  visible : Bool
  progress : Option Nat
deriving DecidableEq, Repr

/-- `TaskProgressManager::showProgress` on a registry snapshot: when
`m_Percentages` is non-empty it sets `progress-visible` to `true`, runs the
eviction sweep, and publishes `total / (count * 100)` in `unsigned long long`
arithmetic; when empty it publishes `progress-visible: false` and no
`progress` property.  Returns the registry after the sweep and the payload. -/
def showProgress (now : Int) (reg : Registry) : Registry × Aggregate :=
  if reg.isEmpty then
    (reg, ⟨false, none⟩)
  else
    let s := sweep now reg
    (s.1, ⟨true, some (s.2.1 / ((s.2.2 * 100) % U64))⟩)

/-- The sequential state of `TaskProgressManager`: the registry, the id
counter `m_NextId` (a `quint32`, kept below `2 ^ 32`), and the latched
publisher flag `m_successful`. -/
structure TaskProgressManager where
  m_Percentages : Registry
  m_NextId : Nat
  m_successful : Bool
deriving DecidableEq, Repr

/-- The constructor `TaskProgressManager::TaskProgressManager`: empty
registry, `m_NextId(1)`, and `m_successful` decided once by whether
`QGuiApplication::desktopFileName()` is empty (passed here as `success`). -/
def initState (success : Bool) : TaskProgressManager :=
  ⟨[], 1, success⟩

/-- `TaskProgressManager::getId`: returns `m_NextId++` (the old value), the
`quint32` counter wrapping modulo `2 ^ 32`. -/
def getId (s : TaskProgressManager) : Nat × TaskProgressManager :=
  (s.m_NextId, { s with m_NextId := (s.m_NextId + 1) % 2 ^ 32 })

/-- `TaskProgressManager::updateProgress(id, value, max)`: returns
immediately when `!m_successful`; otherwise erases `id` when
`value == max`, else stores `(now, (value * 100) / max)` under `id` — the
`qint64` product wrapping on overflow (`I64`) — and runs `showProgress`.
The second component is the payload handed to the D-Bus send, `none` when
no publish happened. -/
def updateProgress (id : Nat) (value mx : Int) (now : Int)
    (s : TaskProgressManager) : TaskProgressManager × Option Aggregate :=
  if s.m_successful = false then
    (s, none)
  else
    let reg := if value = mx then mapErase id s.m_Percentages
               else mapAssign id (now, (I64 (value * 100)).tdiv mx) s.m_Percentages
    let r := showProgress now reg
    ({ s with m_Percentages := r.1 }, some r.2)

/-- `TaskProgressManager::forgetMe(id)`: returns immediately when
`!m_successful`; otherwise erases `id` if present and runs `showProgress`. -/
def forgetMe (id : Nat) (now : Int)
    (s : TaskProgressManager) : TaskProgressManager × Option Aggregate :=
  if s.m_successful = false then
    (s, none)
  else
    let reg := mapErase id s.m_Percentages
    let r := showProgress now reg
    ({ s with m_Percentages := r.1 }, some r.2)

/-- A mutating call against the manager, tagged with the instant at which
`QTime::currentTime()` reads during it. -/
inductive Op where
  | update (id : Nat) (value mx : Int) (now : Int)
  | forget (id : Nat) (now : Int)
deriving DecidableEq, Repr

/-- State transition of one call (the published payload is dropped). -/
def applyOp (op : Op) (s : TaskProgressManager) : TaskProgressManager :=
  match op with
  | .update id v m now => (updateProgress id v m now s).1
  | .forget id now => (forgetMe id now s).1

/-- Run a sequence of mutating calls. -/
def execOps (ops : List Op) (s : TaskProgressManager) : TaskProgressManager :=
  ops.foldl (fun s op => applyOp op s) s

/-- The caller contract of §4.2: `max > 0` and `0 ≤ value ≤ max` on every
update; `forget` is unconstrained. -/
def ContractOk : Op → Prop
  | .update _ v m _ => 0 < m ∧ 0 ≤ v ∧ v ≤ m
  | .forget _ _ => True

/-- No-overflow side condition on an update: the `qint64` product
`value * 100` stays below `2 ^ 63` (the contract's `value ≥ 0` already rules
out underflow).  Without it the product wraps and the stored percentage can
leave [0, 100]. -/
def NoOverflow : Op → Prop
  | .update _ v _ _ => v * 100 < 2 ^ 63
  | .forget _ _ => True

/-- The registry invariant of §3: every stored percentage lies in [0, 100]. -/
def PercentOk (reg : Registry) : Prop :=
  ∀ e ∈ reg, 0 ≤ e.2.2 ∧ e.2.2 ≤ 100

/-- The ids returned by `n` successive `getId` calls. -/
def getIds : Nat → TaskProgressManager → List Nat
  | 0, _ => []
  | n + 1, s =>
      let p := getId s
      p.1 :: getIds n p.2

theorem mem_mapErase {id : Nat} {reg : Registry} {e : Nat × Int × Int} :
    e ∈ mapErase id reg ↔ e ∈ reg ∧ e.1 ≠ id := by
  simp [mapErase, List.mem_filter]

theorem mapErase_eq_self {id : Nat} {reg : Registry}
    (h : ∀ e ∈ reg, e.1 ≠ id) : mapErase id reg = reg := by
  refine List.filter_eq_self.mpr fun e he => ?_
  simpa using h e he

theorem mapFind_eq_none {id : Nat} {reg : Registry}
    (h : ∀ e ∈ reg, e.1 ≠ id) : mapFind id reg = none := by
  induction reg with
  | nil => rfl
  | cons a r ih =>
      rw [mapFind, if_neg (h a (List.mem_cons_self a r))]
      exact ih fun e he => h e (List.mem_cons_of_mem a he)

theorem mem_sweep_fst {now : Int} {reg : Registry} {e : Nat × Int × Int} :
    e ∈ (sweep now reg).1 ↔ e ∈ reg ∧ now - e.2.1 < 15 := by
  induction reg with
  | nil => simp [sweep]
  | cons a rest ih =>
      by_cases h : now - a.2.1 < 15
      · simp only [sweep, if_pos h, List.mem_cons, ih]
        constructor
        · rintro (rfl | ⟨hm, hf⟩)
          · exact ⟨Or.inl rfl, h⟩
          · exact ⟨Or.inr hm, hf⟩
        · rintro ⟨rfl | hm, hf⟩
          · exact Or.inl rfl
          · exact Or.inr ⟨hm, hf⟩
      · simp only [sweep, if_neg h, List.mem_cons, ih]
        constructor
        · rintro ⟨hm, hf⟩
          exact ⟨Or.inr hm, hf⟩
        · rintro ⟨rfl | hm, hf⟩
          · exact absurd hf h
          · exact ⟨hm, hf⟩

theorem sweep_fst_eq_self {now : Int} {reg : Registry}
    (h : ∀ e ∈ reg, now - e.2.1 < 15) : (sweep now reg).1 = reg := by
  induction reg with
  | nil => rfl
  | cons a rest ih =>
      simp only [sweep, if_pos (h a (List.mem_cons_self a rest))]
      rw [ih fun e he => h e (List.mem_cons_of_mem a he)]

theorem mem_showProgress_fst {now : Int} {reg : Registry} {e : Nat × Int × Int} :
    e ∈ (showProgress now reg).1 → e ∈ reg ∧ now - e.2.1 < 15 := by
  unfold showProgress
  split
  · next hemp =>
      intro h
      rw [List.isEmpty_iff.mp hemp] at h
      exact absurd h (List.not_mem_nil e)
  · exact fun h => mem_sweep_fst.mp h

theorem showProgress_fst_of_fresh {now : Int} {reg : Registry}
    (h : ∀ e ∈ reg, now - e.2.1 < 15) : (showProgress now reg).1 = reg := by
  unfold showProgress
  split
  · rfl
  · exact sweep_fst_eq_self h

theorem tdiv_natCast (a b : Nat) : ((a : Int)).tdiv (b : Int) = ((a / b : Nat) : Int) := rfl

theorem I64_eq_self {x : Int} (h1 : -(2 ^ 63) ≤ x) (h2 : x < 2 ^ 63) : I64 x = x := by
  unfold I64
  omega

theorem percent_store_eq {v m : Int} (hv : 0 ≤ v) (hm : 0 ≤ m)
    (hov : v * 100 < 2 ^ 63) :
    (I64 (v * 100)).tdiv m = ((v.toNat * 100) / m.toNat : Nat) := by
  rw [I64_eq_self (by omega) hov]
  obtain ⟨a, rfl⟩ := Int.eq_ofNat_of_zero_le hv
  obtain ⟨b, rfl⟩ := Int.eq_ofNat_of_zero_le hm
  rw [show ((a : Int) * 100) = ((a * 100 : Nat) : Int) by push_cast; ring]
  rw [tdiv_natCast]
  simp

theorem percent_store_bounds {v m : Int} (hm : 0 < m) (hv : 0 ≤ v) (hvm : v ≤ m)
    (hov : v * 100 < 2 ^ 63) :
    0 ≤ (I64 (v * 100)).tdiv m ∧ (I64 (v * 100)).tdiv m ≤ 100 := by
  rw [percent_store_eq hv (le_of_lt hm) hov]
  constructor
  · exact Int.natCast_nonneg _
  · have hb : 0 < m.toNat := by omega
    have hab : v.toNat ≤ m.toNat := by omega
    have h1 : v.toNat * 100 / m.toNat ≤ m.toNat * 100 / m.toNat :=
      Nat.div_le_div_right (Nat.mul_le_mul_right 100 hab)
    have h2 : m.toNat * 100 / m.toNat = 100 := Nat.mul_div_cancel_left 100 hb
    exact_mod_cast le_trans h1 (le_of_eq h2)

theorem updateProgress_fst_successful (id : Nat) (v m now : Int)
    (s : TaskProgressManager) :
    (updateProgress id v m now s).1.m_successful = s.m_successful := by
  unfold updateProgress
  split
  · rfl
  · rfl

theorem forgetMe_fst_successful (id : Nat) (now : Int) (s : TaskProgressManager) :
    (forgetMe id now s).1.m_successful = s.m_successful := by
  unfold forgetMe
  split
  · rfl
  · rfl

theorem applyOp_successful (op : Op) (s : TaskProgressManager) :
    (applyOp op s).m_successful = s.m_successful := by
  cases op with
  | update id v m now => exact updateProgress_fst_successful id v m now s
  | forget id now => exact forgetMe_fst_successful id now s

theorem applyOp_failed_fix {op : Op} {s : TaskProgressManager}
    (h : s.m_successful = false) : applyOp op s = s := by
  cases op <;> simp [applyOp, updateProgress, forgetMe, h]

theorem execOps_failed_fix {ops : List Op} {s : TaskProgressManager}
    (h : s.m_successful = false) : execOps ops s = s := by
  induction ops with
  | nil => rfl
  | cons op rest ih =>
      show execOps rest (applyOp op s) = s
      rw [applyOp_failed_fix h]
      exact ih

theorem execOps_successful (ops : List Op) (s : TaskProgressManager) :
    (execOps ops s).m_successful = s.m_successful := by
  induction ops generalizing s with
  | nil => rfl
  | cons op rest ih =>
      show (execOps rest (applyOp op s)).m_successful = s.m_successful
      rw [ih, applyOp_successful]

theorem reachable_failed_empty (b : Bool) (ops : List Op)
    (h : (execOps ops (initState b)).m_successful = false) :
    (execOps ops (initState b)).m_Percentages = [] := by
  cases b with
  | false =>
      rw [execOps_failed_fix rfl]
      rfl
  | true =>
      rw [execOps_successful] at h
      exact absurd h (by simp [initState])

theorem percentOk_mapErase {id : Nat} {reg : Registry} (h : PercentOk reg) :
    PercentOk (mapErase id reg) :=
  fun e he => h e (mem_mapErase.mp he).1

theorem percentOk_showProgress_fst {now : Int} {reg : Registry} (h : PercentOk reg) :
    PercentOk (showProgress now reg).1 :=
  fun e he => h e (mem_showProgress_fst he).1

theorem percentOk_applyOp {op : Op} {s : TaskProgressManager}
    (hc : ContractOk op) (hov : NoOverflow op) (h : PercentOk s.m_Percentages) :
    PercentOk (applyOp op s).m_Percentages := by
  cases op with
  | update id v m now =>
      obtain ⟨hm, hv, hvm⟩ := hc
      show PercentOk (updateProgress id v m now s).1.m_Percentages
      unfold updateProgress
      split
      · exact h
      · dsimp only
        apply percentOk_showProgress_fst
        split
        · exact percentOk_mapErase h
        · intro e he
          rcases List.mem_cons.mp he with rfl | he'
          · exact percent_store_bounds hm hv hvm hov
          · exact percentOk_mapErase h e he'
  | forget id now =>
      show PercentOk (forgetMe id now s).1.m_Percentages
      unfold forgetMe
      split
      · exact h
      · exact percentOk_showProgress_fst (percentOk_mapErase h)

theorem percentOk_execOps {ops : List Op} :
    ∀ {s : TaskProgressManager}, (∀ op ∈ ops, ContractOk op ∧ NoOverflow op) →
      PercentOk s.m_Percentages → PercentOk (execOps ops s).m_Percentages := by
  induction ops with
  | nil => intro s _ h; exact h
  | cons op rest ih =>
      intro s hc h
      show PercentOk (execOps rest (applyOp op s)).m_Percentages
      exact ih (fun o ho => hc o (List.mem_cons_of_mem op ho))
        (percentOk_applyOp (hc op (List.mem_cons_self op rest)).1
          (hc op (List.mem_cons_self op rest)).2 h)

theorem updateProgress_stores_floor {id : Nat} {v m now : Int}
    {s : TaskProgressManager} (hs : s.m_successful = true)
    (hm : 0 < m) (hv : 0 ≤ v) (hvm : v < m) (hov : v * 100 < 2 ^ 63) :
    mapFind id ((updateProgress id v m now s).1.m_Percentages)
      = some (now, (((v.toNat * 100) / m.toNat : Nat) : Int)) := by
  have hsf : ¬ (s.m_successful = false) := by rw [hs]; exact Bool.true_eq_false ▸ (by simp)
  have hne : ¬ (v = m) := ne_of_lt hvm
  have hfresh : now - now < 15 := by omega
  unfold updateProgress
  rw [if_neg hsf]
  dsimp only
  rw [if_neg hne]
  simp only [mapAssign, showProgress, sweep, List.isEmpty_cons, Bool.false_eq_true,
    if_false, hfresh, if_pos]
  simp only [mapFind, if_pos rfl]
  rw [percent_store_eq hv (le_of_lt hm) hov]
  simp

theorem updateProgress_fst_reg (id : Nat) (v m now : Int) (s : TaskProgressManager)
    (hs : ¬ (s.m_successful = false)) (hvm : v = m) :
    (updateProgress id v m now s).1.m_Percentages
      = (showProgress now (mapErase id s.m_Percentages)).1 := by
  unfold updateProgress
  rw [if_neg hs]
  dsimp only
  rw [if_pos hvm]

/-- Claim C7: for every state satisfying the component's reachability
invariant (a failed publisher implies an empty registry — see
`reachable_failed_empty`), calling `update(id, max, max)` leaves `id` absent
from the Registry immediately after the call, and repeating the call when
`id` is already absent leaves the registry contents unchanged. -/
theorem completion_removes (s : TaskProgressManager) (id : Nat) (mx now : Int)
    (hs : s.m_successful = false → s.m_Percentages = []) :
    mapFind id ((updateProgress id mx mx now s).1.m_Percentages) = none ∧
    (updateProgress id mx mx now (updateProgress id mx mx now s).1).1.m_Percentages
      = (updateProgress id mx mx now s).1.m_Percentages := by
  by_cases hsucc : s.m_successful = false
  · have hreg := hs hsucc
    simp [updateProgress, hsucc, hreg, mapFind]
  · have h1 := updateProgress_fst_reg id mx mx now s hsucc rfl
    have hkeys : ∀ e ∈ (showProgress now (mapErase id s.m_Percentages)).1, e.1 ≠ id :=
      fun e he => (mem_mapErase.mp (mem_showProgress_fst he).1).2
    have hfresh : ∀ e ∈ (showProgress now (mapErase id s.m_Percentages)).1,
        now - e.2.1 < 15 := fun e he => (mem_showProgress_fst he).2
    have hsucc1 : ¬ ((updateProgress id mx mx now s).1.m_successful = false) := by
      rw [updateProgress_fst_successful]
      exact hsucc
    refine ⟨?_, ?_⟩
    · rw [h1]
      exact mapFind_eq_none hkeys
    · rw [updateProgress_fst_reg id mx mx now _ hsucc1 rfl, h1, mapErase_eq_self hkeys,
        showProgress_fst_of_fresh hfresh]

theorem getIds_range (n : Nat) :
    ∀ s : TaskProgressManager, s.m_NextId + n ≤ 2 ^ 32 →
      getIds n s = List.range' s.m_NextId n := by
  induction n with
  | zero => intro s _; rfl
  | succ k ih =>
      intro s h
      show (getId s).1 :: getIds k (getId s).2 = List.range' s.m_NextId (k + 1)
      rw [List.range'_succ]
      cases k with
      | zero => rfl
      | succ k2 =>
          have hlt : s.m_NextId + 1 < 2 ^ 32 := by omega
          have hmod : (s.m_NextId + 1) % 2 ^ 32 = s.m_NextId + 1 := Nat.mod_eq_of_lt hlt
          have h2 : (getId s).2.m_NextId = s.m_NextId + 1 := by
            show (s.m_NextId + 1) % 2 ^ 32 = s.m_NextId + 1
            exact hmod
          have h3 := ih (getId s).2 (by rw [h2]; omega)
          rw [h3, h2]
          rfl

/-- Claim C1: the spec says the published fraction is the arithmetic mean of
the percents divided by 100 (0.375 after `update(1,50,100)`; `update(2,25,100)`).
The code computes `total / (count * 100)` in `unsigned long long` integer
arithmetic, so this very scenario publishes the integer 0, not 0.375: the
division 75 / 200 truncates to 0. -/
theorem mean_scenario_publishes_integer_zero :
    (updateProgress 2 25 100 0 (updateProgress 1 50 100 0 (initState true)).1).2
      = some ⟨true, some 0⟩ := by
  decide

/-- Claim C2: the spec says a call whose eviction sweep removes every entry
hands `{visible: false, fraction: 0}` to the Publisher.  In the code
`progress-visible` is set to `true` before the sweep runs, so a call on a
registry whose entries are all stale publishes `visible = true` (and its
`total / (count * 100)` is a division by zero, `count` being 0). -/
theorem all_stale_call_publishes_visible_true :
    (updateProgress 2 5 5 20 (⟨[(1, (0, 50))], 2, true⟩ : TaskProgressManager)).2
      = some ⟨true, some 0⟩ := by
  decide

/-- Claim C3: the spec says the divisor `100 * count` is nonzero whenever the
combined fraction is computed.  On a non-empty registry whose entries are all
stale the non-empty branch of `showProgress` is taken, yet the sweep leaves
`count = 0`, so the code divides by zero there. -/
theorem all_stale_divisor_is_zero :
    ([(1, ((0 : Int), (50 : Int)))] : Registry) ≠ [] ∧
    ((sweep 20 [(1, ((0 : Int), (50 : Int)))]).2.2 * 100) % U64 = 0 := by
  decide

/-- Claim C4 counterexample: with the Publisher in the failed state,
`update(1, 50, 100)` inserts nothing — the Registry does not keep tracking
task state, contrary to the claim that only the publish step is skipped. -/
theorem failed_update_inserts_nothing_cex :
    mapFind 1 ((updateProgress 1 50 100 0 (initState false)).1.m_Percentages)
      = none := by
  decide

/-- Claim C4 (amended): when the Publisher is in the failed state, `update`
and `forget` leave the Registry unchanged and publish nothing — the calls
are complete no-ops, not registry mutations with a skipped publish. -/
theorem failed_calls_leave_registry_unchanged (s : TaskProgressManager)
    (id : Nat) (v m now t : Int) (h : s.m_successful = false) :
    (updateProgress id v m now s).1.m_Percentages = s.m_Percentages ∧
    (updateProgress id v m now s).2 = none ∧
    (forgetMe id t s).1.m_Percentages = s.m_Percentages ∧
    (forgetMe id t s).2 = none := by
  simp [updateProgress, forgetMe, h]

/-- Witness for the amended C4 at a concrete failed-publisher state. -/
theorem failed_calls_leave_registry_unchanged_witness :
    (updateProgress 2 10 20 0
        (⟨[(7, (0, 30))], 4, false⟩ : TaskProgressManager)).1.m_Percentages
      = [(7, (0, 30))] ∧
    (updateProgress 2 10 20 0
        (⟨[(7, (0, 30))], 4, false⟩ : TaskProgressManager)).2 = none ∧
    (forgetMe 2 0 (⟨[(7, (0, 30))], 4, false⟩ : TaskProgressManager)).1.m_Percentages
      = [(7, (0, 30))] ∧
    (forgetMe 2 0 (⟨[(7, (0, 30))], 4, false⟩ : TaskProgressManager)).2 = none :=
  failed_calls_leave_registry_unchanged ⟨[(7, (0, 30))], 4, false⟩ 2 10 20 0 0 rfl

/-- Claim C5: when the Publisher is in the failed state, every `update` and
`forget` call is a no-op entirely: the state is returned unchanged and
nothing is published. -/
theorem failed_calls_complete_noop (s : TaskProgressManager) (id : Nat)
    (v m now t : Int) (h : s.m_successful = false) :
    updateProgress id v m now s = (s, none) ∧ forgetMe id t s = (s, none) := by
  simp [updateProgress, forgetMe, h]

/-- Witness for C5 at the failed initial state. -/
theorem failed_calls_complete_noop_witness :
    updateProgress 1 3 8 0 (initState false) = (initState false, none) ∧
    forgetMe 1 0 (initState false) = (initState false, none) :=
  failed_calls_complete_noop (initState false) 1 3 8 0 0 rfl

/-- Claim C6 counterexample: an entry whose age is exactly 15 seconds — which
does not exceed the threshold — is nevertheless evicted, because the code
keeps an entry only when `secsTo(now) < 15`. -/
theorem entry_aged_exactly_15_evicted_cex :
    ¬ ((15 : Int) - 0 > 15) ∧ (sweep 15 [(1, ((0 : Int), (50 : Int)))]).1 = [] := by
  decide

/-- Claim C6 (amended): during the eviction sweep an entry is retained iff
`now - lastUpdate < 15`; equivalently it is removed iff its age is at least
15 seconds (not: strictly more than 15). -/
theorem sweep_retains_iff_age_lt_15 (now : Int) (reg : Registry)
    (e : Nat × Int × Int) :
    e ∈ (sweep now reg).1 ↔ e ∈ reg ∧ now - e.2.1 < 15 :=
  mem_sweep_fst

/-- Claim C9: the spec says `forget` is idempotent including the observable
aggregate.  On a registry whose one remaining entry is stale, the first
`forget` publishes `visible = true` (evicting everything, with a
division by zero in the C++), while the second publishes `visible = false`:
the two published aggregates differ. -/
theorem forget_twice_aggregate_differs :
    (forgetMe 1 15 (⟨[(2, (0, 25))], 3, true⟩ : TaskProgressManager)).2
      ≠ (forgetMe 1 15
          (forgetMe 1 15 (⟨[(2, (0, 25))], 3, true⟩ : TaskProgressManager)).1).2 := by
  decide

/-- Witness for C7 at a concrete reachable-shaped state. -/
theorem completion_removes_witness :
    mapFind 1 ((updateProgress 1 7 7 0
        (⟨[(1, (0, 50)), (3, (0, 80))], 4, true⟩ : TaskProgressManager)).1.m_Percentages)
      = none ∧
    (updateProgress 1 7 7 0
        (updateProgress 1 7 7 0
          (⟨[(1, (0, 50)), (3, (0, 80))], 4, true⟩ : TaskProgressManager)).1).1.m_Percentages
      = (updateProgress 1 7 7 0
          (⟨[(1, (0, 50)), (3, (0, 80))], 4, true⟩ : TaskProgressManager)).1.m_Percentages :=
  completion_removes ⟨[(1, (0, 50)), (3, (0, 80))], 4, true⟩ 1 7 0 (by decide)

/-- Claim C8 counterexample: a contract-conforming update
(`max > 0`, `0 ≤ value ≤ max`) whose `qint64` product `value * 100`
overflows stores percent −2 — outside [0, 100] and not
`floor(value * 100 / max)`, which is 99 — so the original claim fails. -/
theorem percent_overflow_cex :
    ContractOk (Op.update 1 3412647653636267049 3412647653636267050 0) ∧
    ¬ PercentOk (execOps [Op.update 1 3412647653636267049 3412647653636267050 0]
        (initState true)).m_Percentages ∧
    mapFind 1 ((updateProgress 1 3412647653636267049 3412647653636267050 0
        (initState true)).1.m_Percentages) = some (0, -2) := by
  refine ⟨⟨by decide, by decide, by decide⟩, ?_, by decide⟩
  intro hpk
  have h := hpk (1, (0, -2)) (by decide)
  exact absurd h.1 (by decide)

/-- Claim C8 (amended): under the caller contract (`max > 0`,
`0 ≤ value ≤ max`) and provided each update's `qint64` product
`value * 100` does not overflow (`value * 100 < 2 ^ 63`), every registry
reachable from the initial state satisfies the percent invariant
`0 ≤ percent ≤ 100`, and each such non-completion update stores exactly
`floor(value * 100 / max)` (with the current timestamp) under its id. -/
theorem percent_invariant_and_floor_storage :
    (∀ (b : Bool) (ops : List Op), (∀ op ∈ ops, ContractOk op ∧ NoOverflow op) →
      PercentOk (execOps ops (initState b)).m_Percentages) ∧
    (∀ (id : Nat) (v m now : Int) (s : TaskProgressManager),
      s.m_successful = true → 0 < m → 0 ≤ v → v < m → v * 100 < 2 ^ 63 →
      mapFind id ((updateProgress id v m now s).1.m_Percentages)
        = some (now, (((v.toNat * 100) / m.toNat : Nat) : Int))) := by
  constructor
  · intro b ops hc
    exact percentOk_execOps hc (fun e he => absurd he (List.not_mem_nil e))
  · intro id v m now s hs hm hv hvm hov
    exact updateProgress_stores_floor hs hm hv hvm hov

/-- Witness for C8: one contract-conforming, non-overflowing update from the
fresh state. -/
theorem percent_invariant_and_floor_storage_witness :
    PercentOk (execOps [Op.update 1 50 100 0] (initState true)).m_Percentages ∧
    mapFind 1 ((updateProgress 1 50 100 0 (initState true)).1.m_Percentages)
      = some (0, 50) := by
  constructor
  · refine percent_invariant_and_floor_storage.1 true [Op.update 1 50 100 0] ?_
    intro op hop
    simp only [List.mem_singleton] at hop
    subst hop
    exact ⟨⟨by decide, by decide, by decide⟩, (by decide : (50 : Int) * 100 < 2 ^ 63)⟩
  · exact percent_invariant_and_floor_storage.2 1 50 100 0 (initState true) rfl
      (by decide) (by decide) (by decide) (by decide)

/-- Claim C10: `getId` issues identifiers starting at 1 and strictly
monotonically increasing: any run of `n < 2 ^ 32` acquire calls returns
exactly `[1, 2, ..., n]`, so each value exceeds all earlier ones and no
identifier is reused. -/
theorem acquire_ids_strictly_increasing (b : Bool) (n : Nat) (h : n < 2 ^ 32) :
    getIds n (initState b) = List.range' 1 n ∧
    List.Pairwise (· < ·) (getIds n (initState b)) := by
  have h1 : getIds n (initState b) = List.range' 1 n :=
    getIds_range n (initState b) (by show 1 + n ≤ 2 ^ 32; omega)
  refine ⟨h1, ?_⟩
  rw [h1]
  exact List.pairwise_lt_range' 1 n

/-- Witness for C10 with three acquire calls. -/
theorem acquire_ids_strictly_increasing_witness :
    getIds 3 (initState true) = List.range' 1 3 ∧
    List.Pairwise (· < ·) (getIds 3 (initState true)) :=
  acquire_ids_strictly_increasing true 3 (by decide)

end MOBase
